import Mathlib

/-!
# SuperChannel: the Redis-backed write channel (`redisChannel.go`)

A shallow embedding of `Make`, `RedisChannel.Close` and the worker goroutine
started by `process`.

* The Go channel `ch` is a bounded FIFO with a `closed` flag (`Chan`).
* The worker closure of `Make` is a record of its local variables (`Worker`):
  the slice `buffer`, the Redis connection `c` (dialled / closed flags and the
  list of commands issued on it) and the control point it has reached.
* Two granularities. In `Sys`, `loop`, `step` one iteration of the
  `for { select { ... } }` loop is one atomic step and the channel is a plain
  buffer: this is the view in which the worker's batching logic is stated. In
  `Prog` the worker's statements are separate steps and the channel follows
  the Go runtime (hand-over to a blocked receiver, parked senders): this is
  the view in which what producers can observe between two statements of the
  worker is stated.
* `log.Fatal` is `os.Exit(1)` after printing: the process stops at once and
  deferred calls (here `defer c.Close()`) are not run.
-/

namespace SuperChannel

/-- The constant `CLOSE_TOKEN` of `redisChannel.go`. -/
def CLOSE_TOKEN : String := "closePACKET"

/-- The length of the flush window in milliseconds: `time.Millisecond * 40`. -/
def FLUSH_WINDOW : Nat := 40

/-- Redis commands issued on the connection `c`, by `c.Send` or `c.Do`. -/
inductive Cmd
  | del (key : String)
  | multi
  | rpush (key : String) (val : String)
  | exec
  deriving DecidableEq, Repr

/-- Control point of the worker goroutine. -/
inductive Phase
  /-- started by `process`, `redis.Dial` and `DEL` not yet done -/
  | connecting
  /-- waiting at the `select` of the `CLOSE_ME` loop -/
  | running
  /-- left the loop by `break CLOSE_ME`; the closure has returned -/
  | exited
  /-- `log.Fatal` was called: the process has exited with status 1 -/
  | fatal
  deriving DecidableEq, Repr

/-- The Go channel `ch := make(RedisChannel, bufferSize)`. -/
structure Chan where
  /-- capacity, `bufferSize` -/
  cap : Nat
  /-- values sent and not yet received, oldest first -/
  queue : List String
  /-- set by `close(ch)` -/
  closed : Bool
  deriving DecidableEq, Repr

/-- Local state of the worker closure of `Make`. -/
structure Worker where
  /-- the captured parameter `channelName` -/
  channelName : String
  phase : Phase
  /-- the slice `buffer` -/
  buffer : List String
  /-- `redis.Dial` returned a connection -/
  connDialed : Bool
  /-- `c.Close()` has run -/
  connClosed : Bool
  /-- commands issued on `c`, in issue order -/
  cmds : List Cmd
  /-- history: the values the worker has taken from `ch`, in receive order -/
  recvd : List String
  deriving DecidableEq, Repr

/-- A `RedisChannel` made by `Make` together with its worker goroutine. -/
structure Sys where
  ch : Chan
  w : Worker
  deriving DecidableEq, Repr

/-- `Make(channelName, bufferSize)`: the channel is created empty and the worker
is started (`ch.process`); nothing of the closure has run yet. A negative
`bufferSize` makes `make` panic, so the capacity is a natural number. -/
def Make (channelName : String) (bufferSize : Nat) : Sys :=
  { ch := { cap := bufferSize, queue := [], closed := false },
    w := { channelName := channelName, phase := .connecting, buffer := [],
           connDialed := false, connClosed := false, cmds := [], recvd := [] } }

/-- The start of the closure, lines 85-99: `redis.Dial`, `defer c.Close()`,
`c.Do("DEL", channelName)`. `dialOk` and `delOk` say whether the two calls
returned without error. On an error `log.Fatal` ends the process. -/
def startup (s : Sys) (dialOk delOk : Bool) : Sys :=
  if dialOk then
    let w1 := { s.w with connDialed := true, cmds := s.w.cmds ++ [Cmd.del s.w.channelName] }
    if delOk then { s with w := { w1 with phase := .running } }
    else { s with w := { w1 with phase := .fatal } }
  else { s with w := { s.w with phase := .fatal } }

/-- The loop iteration that takes `case result := <-ch`, lines 104-112, for the
received value `result`, run to its end as one step. On `CLOSE_TOKEN`:
`close(ch)`, `break CLOSE_ME`, the closure returns and the deferred
`c.Close()` runs. Otherwise `buffer = append(buffer, result)`. The states
between these statements are those of `Prog` (`Prog.processResult`,
`Prog.leave`). -/
def recvCase (s : Sys) (result : String) : Sys :=
  if result = CLOSE_TOKEN then
    { ch := { s.ch with closed := true },
      w := { s.w with phase := .exited, connClosed := true,
                      recvd := s.w.recvd ++ [result] } }
  else
    { s with w := { s.w with buffer := s.w.buffer ++ [result],
                             recvd := s.w.recvd ++ [result] } }

/-- The commands of one flush, lines 119-123: `MULTI`, one `RPUSH channelName val`
for each `val` of `buffer` in order, `EXEC`. -/
def flushCmds (channelName : String) (buffer : List String) : List Cmd :=
  [Cmd.multi] ++ buffer.map (Cmd.rpush channelName) ++ [Cmd.exec]

/-- The body of `case <-time.After(time.Millisecond * 40)`, lines 114-131.
`execOk` says whether `c.Do("EXEC")` returned without error. -/
def timerCase (s : Sys) (execOk : Bool) : Sys :=
  if s.w.buffer.length > 0 then
    let w1 := { s.w with cmds := s.w.cmds ++ flushCmds s.w.channelName s.w.buffer }
    if execOk then { s with w := { w1 with buffer := [] } }
    else { s with w := { w1 with phase := .fatal } }
  else s

/-- What the worker's `select` can deliver. -/
inductive Event
  /-- a value was received from `ch` -/
  | recv (result : String)
  /-- the 40ms timer elapsed; `execOk` is the outcome of `EXEC` should one be issued -/
  | timer (execOk : Bool)
  deriving DecidableEq, Repr

/-- One iteration of the `CLOSE_ME` loop. -/
def onEvent (s : Sys) : Event → Sys
  | .recv result => recvCase s result
  | .timer execOk => timerCase s execOk

/-- The `CLOSE_ME` loop run on the events its `select` delivers. The loop goes on
only while the worker is running: after `break CLOSE_ME` or `log.Fatal` the
remaining events are not looked at. -/
def loop : Sys → List Event → Sys
  | s, [] => s
  | s, e :: es =>
    match s.w.phase with
    | .running => loop (onEvent s e) es
    | _ => s

/-- The values of the `RPUSH` commands of a command list, in issue order. -/
def rpushValues : List Cmd → List String
  | [] => []
  | .rpush _ val :: cs => val :: rpushValues cs
  | _ :: cs => rpushValues cs

/-- A worker that has connected and cleaned up successfully and is about to
enter the loop. -/
def started (channelName : String) (bufferSize : Nat) : Sys :=
  startup (Make channelName bufferSize) true true

/-- The messages of a list before the first `CLOSE_TOKEN`. -/
def beforeSentinel (l : List String) : List String :=
  l.takeWhile (fun m => decide (m ≠ CLOSE_TOKEN))

/-- The values of the `recv` events of an event list, in order. -/
def msgs : List Event → List String
  | [] => []
  | .recv m :: es => m :: msgs es
  | .timer _ :: es => msgs es

/-! ## The channel seen from the producers -/

/-- What happens to a send statement `ch <- m`. -/
inductive SendResult
  /-- the value was put into the channel's buffer -/
  | accepted
  /-- unbuffered channel: the value was handed to the worker waiting at `select` -/
  | handedOver
  /-- the channel is full (or unbuffered with no receiver waiting): the sender waits -/
  | blocked
  /-- panic: send on closed channel -/
  | panicClosed
  deriving DecidableEq, Repr

/-- The outcome of `ch <- m` in state `s` with the channel taken as a plain
buffer: a value is queued whenever there is room, also when the worker is
waiting (its receive is then the `recv` action that follows); only on an
unbuffered channel is it handed to the worker directly. `Prog.sendOutcome`
follows the Go runtime, which hands over to a blocked worker whatever the
capacity. -/
def trySend (s : Sys) : SendResult :=
  if s.ch.closed then .panicClosed
  else if s.ch.queue.length < s.ch.cap then .accepted
  else if s.ch.cap = 0 ∧ s.w.phase = .running then .handedOver
  else .blocked

/-- The send statement `ch <- m` executed by a producer, with the channel taken
as a plain buffer. A panicking send leaves the channel as it is; so does a
blocked one, which is issued again once there is room (`Prog.send` keeps the
parked sender and completes its send at the worker's receive). -/
def send (s : Sys) (m : String) : Sys :=
  match trySend s with
  | .accepted => { s with ch := { s.ch with queue := s.ch.queue ++ [m] } }
  | .handedOver => recvCase s m
  | .blocked => s
  | .panicClosed => s

/-- `RedisChannel.Close`, lines 140-143: `ch <- CLOSE_TOKEN`. -/
def Close (s : Sys) : Sys :=
  send s CLOSE_TOKEN

/-- The atomic actions of the program: the worker's start and loop iterations,
and the producers' sends and `Close()` calls. -/
inductive Action
  /-- the worker runs lines 85-99 -/
  | start (dialOk delOk : Bool)
  /-- a producer executes `ch <- m` -/
  | send (m : String)
  /-- a producer calls `ch.Close()` -/
  | close
  /-- the worker's `select` takes the oldest value of the channel -/
  | recv
  /-- the worker's `select` takes the timer case -/
  | timer (execOk : Bool)
  deriving DecidableEq, Repr

/-- One action at loop-iteration granularity. An action that is not enabled
leaves the state unchanged; after `log.Fatal` the process is gone and nothing
happens any more. -/
def step (s : Sys) : Action → Sys
  | .start dialOk delOk =>
    match s.w.phase with
    | .connecting => startup s dialOk delOk
    | _ => s
  | .send m =>
    match s.w.phase with
    | .fatal => s
    | _ => send s m
  | .close =>
    match s.w.phase with
    | .fatal => s
    | _ => Close s
  | .recv =>
    match s.w.phase, s.ch.queue with
    | .running, m :: rest => recvCase { s with ch := { s.ch with queue := rest } } m
    | _, _ => s
  | .timer execOk =>
    match s.w.phase with
    | .running => timerCase s execOk
    | _ => s

/-- A sequence of actions. -/
def run (s : Sys) (as : List Action) : Sys :=
  as.foldl step s

/-- Every value that has entered the channel so far, in send order: those the
worker has received followed by those still queued. -/
def accepted (s : Sys) : List String :=
  s.w.recvd ++ s.ch.queue

/-! ## The select loop with its timer

`time.After(time.Millisecond * 40)` is evaluated each time the `select`
statement is entered, so each loop iteration waits on a fresh timer that
fires 40ms after that iteration began. Times are in milliseconds; handling an
event takes no time. -/

/-- The worker at its `select`, with the time at which this `select` was entered. -/
structure Timed where
  sys : Sys
  /-- the time at which the current `select` statement was entered -/
  selectAt : Nat
  deriving DecidableEq, Repr

/-- The time at which the timer of the current `select` fires. -/
def timerDue (t : Timed) : Nat :=
  t.selectAt + FLUSH_WINDOW

/-- What the `select` delivers, with the time of the delivery. -/
inductive TimedEvent
  /-- the value `m` is received at time `at` -/
  | arrive (time : Nat) (m : String)
  /-- no value was received before the timer fired -/
  | fire (execOk : Bool)
  deriving DecidableEq, Repr

/-- One iteration of the loop in time. A value can only be received between the
entry into `select` and the firing of its timer; the next `select` is entered
when the case taken is done. `none` when the event cannot happen. -/
def timedStep (t : Timed) : TimedEvent → Option Timed
  | .arrive time m =>
    if t.sys.w.phase = .running ∧ t.selectAt ≤ time ∧ time ≤ timerDue t then
      some { sys := recvCase t.sys m, selectAt := time }
    else none
  | .fire execOk =>
    if t.sys.w.phase = .running then
      some { sys := timerCase t.sys execOk, selectAt := timerDue t }
    else none

/-- A sequence of timed events. -/
def timedRun (t : Timed) : List TimedEvent → Option Timed
  | [] => some t
  | e :: es => (timedStep t e).bind (fun t1 => timedRun t1 es)

/-- The worker entering its loop at time `0`. -/
def timedStart (channelName : String) (bufferSize : Nat) : Timed :=
  { sys := started channelName bufferSize, selectAt := 0 }

/-! ## The program statement by statement

The model above takes one loop iteration as one step and the channel as a
plain buffer. Here the worker's statements are separate steps and the channel
follows the Go runtime: a send to a worker that is blocked in `select` hands
the value over at once, whatever the capacity; a send on a full channel parks
the sender, and a later receive moves the parked sender's value into the
buffer; `close(ch)` makes the parked senders panic. -/

/-- Where the worker goroutine stands, statement by statement. -/
inductive Pc
  /-- started by `process`, lines 85-99 not yet run -/
  | connecting
  /-- about to evaluate the `select` of line 103 -/
  | atSelect
  /-- blocked in `select`: nothing to receive, timer not yet elapsed -/
  | parked
  /-- line 104 has delivered `result`; lines 105-112 have not run yet -/
  | received (result : String)
  /-- `close(ch)` of line 107 is done; `break`, line 135 and the deferred
  `c.Close()` have not run yet -/
  | closedCh
  /-- the closure has returned and the deferred `c.Close()` has run -/
  | exited
  /-- `log.Fatal` was called: the process has exited with status 1 -/
  | fatal
  deriving DecidableEq, Repr

/-- The channel, its parked senders and the worker's variables. -/
structure Prog where
  ch : Chan
  /-- the values of the senders parked on the channel, oldest first -/
  sendq : List String
  pc : Pc
  /-- the captured parameter `channelName` -/
  channelName : String
  /-- the slice `buffer` -/
  buffer : List String
  /-- `redis.Dial` returned a connection -/
  connDialed : Bool
  /-- `c.Close()` has run -/
  connClosed : Bool
  /-- commands issued on `c`, in issue order -/
  cmds : List Cmd
  /-- history: the values the worker has taken from `ch`, in receive order -/
  recvd : List String
  deriving DecidableEq, Repr

/-- `Make(channelName, bufferSize)` at the moment it returns: an empty channel
and a worker goroutine that has not run yet. -/
def Prog.Make (channelName : String) (bufferSize : Nat) : Prog :=
  { ch := { cap := bufferSize, queue := [], closed := false },
    sendq := [], pc := .connecting, channelName := channelName, buffer := [],
    connDialed := false, connClosed := false, cmds := [], recvd := [] }

/-- Lines 85-99: `redis.Dial`, `defer c.Close()`, `c.Do("DEL", channelName)`;
on an error `log.Fatal`. -/
def Prog.startup (p : Prog) (dialOk delOk : Bool) : Prog :=
  if dialOk then
    if delOk then
      { p with connDialed := true, cmds := p.cmds ++ [Cmd.del p.channelName], pc := .atSelect }
    else
      { p with connDialed := true, cmds := p.cmds ++ [Cmd.del p.channelName], pc := .fatal }
  else { p with pc := .fatal }

/-- The worker evaluates `select` (line 103). A buffered value is received and
the oldest parked sender, if any, puts its value into the freed slot; with an
empty buffer the value of a parked sender is taken directly (unbuffered
channel); with nothing to receive the worker blocks until a send or the timer. -/
def Prog.enterSelect (p : Prog) : Prog :=
  match p.ch.queue, p.sendq with
  | m :: rest, [] =>
    { p with ch := { p.ch with queue := rest }, pc := .received m, recvd := p.recvd ++ [m] }
  | m :: rest, x :: xs =>
    { p with ch := { p.ch with queue := rest ++ [x] }, sendq := xs, pc := .received m,
             recvd := p.recvd ++ [m] }
  | [], x :: xs => { p with sendq := xs, pc := .received x, recvd := p.recvd ++ [x] }
  | [], [] => { p with pc := .parked }

/-- Lines 105-112 for the received value `result`. On `CLOSE_TOKEN` the worker
runs `close(ch)` (senders parked on the channel panic); otherwise
`buffer = append(buffer, result)` and the loop goes round. -/
def Prog.processResult (p : Prog) (result : String) : Prog :=
  if result = CLOSE_TOKEN then
    { p with ch := { p.ch with closed := true }, sendq := [], pc := .closedCh }
  else
    { p with buffer := p.buffer ++ [result], pc := .atSelect }

/-- Lines 115-131, taken when the timer of the blocked `select` elapses. -/
def Prog.timerFires (p : Prog) (execOk : Bool) : Prog :=
  if p.buffer.length > 0 then
    if execOk then
      { p with cmds := p.cmds ++ flushCmds p.channelName p.buffer, buffer := [], pc := .atSelect }
    else
      { p with cmds := p.cmds ++ flushCmds p.channelName p.buffer, pc := .fatal }
  else { p with pc := .atSelect }

/-- After `close(ch)`: `break CLOSE_ME`, line 135, the closure returns and the
deferred `c.Close()` runs. -/
def Prog.leave (p : Prog) : Prog :=
  { p with connClosed := true, pc := .exited }

/-- The outcome of a send statement `ch <- m` (Go channel semantics). -/
def Prog.sendOutcome (p : Prog) : SendResult :=
  if p.ch.closed then .panicClosed
  else if p.pc = .parked then .handedOver
  else if p.ch.queue.length < p.ch.cap then .accepted
  else .blocked

/-- The send statement `ch <- m` of a producer. -/
def Prog.send (p : Prog) (m : String) : Prog :=
  match p.sendOutcome with
  | .accepted => { p with ch := { p.ch with queue := p.ch.queue ++ [m] } }
  | .handedOver => { p with pc := .received m, recvd := p.recvd ++ [m] }
  | .blocked => { p with sendq := p.sendq ++ [m] }
  | .panicClosed => p

/-- `RedisChannel.Close`, lines 140-143: `ch <- CLOSE_TOKEN`. -/
def Prog.Close (p : Prog) : Prog :=
  p.send CLOSE_TOKEN

/-- The atomic steps of the program at statement granularity. -/
inductive Act
  /-- the worker runs lines 85-99 -/
  | start (dialOk delOk : Bool)
  /-- the worker evaluates `select` -/
  | enter
  /-- the timer of the blocked `select` elapses and lines 115-131 run -/
  | timer (execOk : Bool)
  /-- the worker runs lines 105-112 on the value it holds -/
  | process
  /-- the worker leaves the loop and returns -/
  | leave
  /-- a producer executes `ch <- m` -/
  | send (m : String)
  /-- a producer calls `ch.Close()` -/
  | close
  deriving DecidableEq, Repr

/-- One step. A step that is not enabled leaves the state unchanged; after
`log.Fatal` the process is gone. -/
def Prog.step (p : Prog) : Act → Prog
  | .start dialOk delOk =>
    match p.pc with
    | .connecting => p.startup dialOk delOk
    | _ => p
  | .enter =>
    match p.pc with
    | .atSelect => p.enterSelect
    | _ => p
  | .timer execOk =>
    match p.pc with
    | .parked => p.timerFires execOk
    | _ => p
  | .process =>
    match p.pc with
    | .received result => p.processResult result
    | _ => p
  | .leave =>
    match p.pc with
    | .closedCh => p.leave
    | _ => p
  | .send m =>
    match p.pc with
    | .fatal => p
    | _ => p.send m
  | .close =>
    match p.pc with
    | .fatal => p
    | _ => p.Close

/-- A sequence of steps. -/
def Prog.run (p : Prog) (as : List Act) : Prog :=
  as.foldl Prog.step p

/-- What holds at statement granularity in every state the program reaches. -/
structure PInv (p : Prog) : Prop where
  closed_iff : p.ch.closed = true ↔ (p.pc = .closedCh ∨ p.pc = .exited)
  sentinel_iff : CLOSE_TOKEN ∈ p.recvd ↔
    (p.pc = .received CLOSE_TOKEN ∨ p.pc = .closedCh ∨ p.pc = .exited)
  connClosed_iff : p.connClosed = true ↔ p.pc = .exited

/-! ## Invariants -/

/-- What holds of the worker and the channel's `closed` flag in every state the
program can reach. -/
structure WInv (s : Sys) : Prop where
  closed_iff : s.ch.closed = true ↔ CLOSE_TOKEN ∈ s.w.recvd
  exited_iff : s.w.phase = .exited ↔ CLOSE_TOKEN ∈ s.w.recvd
  connClosed_iff : s.w.connClosed = true ↔ s.w.phase = .exited
  pushed_buffer : s.w.phase ≠ .fatal →
    rpushValues s.w.cmds ++ s.w.buffer = beforeSentinel s.w.recvd
  pushed_isPrefix : rpushValues s.w.cmds <+: beforeSentinel s.w.recvd
  buffer_clean : CLOSE_TOKEN ∉ s.w.buffer
  fresh : s.w.phase = .connecting → s.w.recvd = [] ∧ s.w.buffer = [] ∧ s.w.cmds = []
  cmds_shape : (s.w.cmds = [] ∧ (s.w.phase = .connecting ∨ s.w.phase = .fatal)) ∨
    ∃ batches : List (List String),
    (∀ b ∈ batches, b ≠ []) ∧
      s.w.cmds = Cmd.del s.w.channelName :: batches.flatMap (flushCmds s.w.channelName)

/-- The worker invariant together with the bound on the channel's buffer. -/
structure Inv (s : Sys) : Prop where
  worker : WInv s
  queue_le : s.ch.queue.length ≤ s.ch.cap

end SuperChannel

namespace SuperChannel

/-! ## Lists of commands and messages -/

theorem rpushValues_append (xs ys : List Cmd) :
    rpushValues (xs ++ ys) = rpushValues xs ++ rpushValues ys := by
  induction xs with
  | nil => rfl
  | cons c cs ih => cases c <;> simp [rpushValues, ih]

theorem rpushValues_map_rpush (key : String) (vs : List String) :
    rpushValues (vs.map (Cmd.rpush key)) = vs := by
  induction vs with
  | nil => rfl
  | cons v vs ih => simp [rpushValues, ih]

theorem rpushValues_flushCmds (key : String) (vs : List String) :
    rpushValues (flushCmds key vs) = vs := by
  simp [flushCmds, rpushValues_append, rpushValues_map_rpush, rpushValues]

theorem rpushValues_flatMap_flushCmds (key : String) (batches : List (List String)) :
    rpushValues (batches.flatMap (flushCmds key)) = batches.flatten := by
  induction batches with
  | nil => rfl
  | cons b bs ih => simp [List.flatMap_cons, rpushValues_append, rpushValues_flushCmds, ih]

theorem not_mem_beforeSentinel (l : List String) : CLOSE_TOKEN ∉ beforeSentinel l := by
  intro h
  have := List.mem_takeWhile_imp h
  simp at this

theorem beforeSentinel_of_not_mem {l : List String} (h : CLOSE_TOKEN ∉ l) :
    beforeSentinel l = l := by
  unfold beforeSentinel
  rw [List.takeWhile_eq_self_iff]
  intro x hx
  have : x ≠ CLOSE_TOKEN := fun e => h (e ▸ hx)
  simpa using this

theorem beforeSentinel_append_of_not_mem {l : List String} (t : List String)
    (h : CLOSE_TOKEN ∉ l) : beforeSentinel (l ++ t) = l ++ beforeSentinel t := by
  unfold beforeSentinel
  apply List.takeWhile_append_of_pos
  intro x hx
  have : x ≠ CLOSE_TOKEN := fun e => h (e ▸ hx)
  simpa using this

theorem beforeSentinel_append_of_mem {l : List String} (t : List String)
    (h : CLOSE_TOKEN ∈ l) : beforeSentinel (l ++ t) = beforeSentinel l := by
  induction l with
  | nil => simp at h
  | cons x xs ih =>
    by_cases hx : x = CLOSE_TOKEN
    · simp [beforeSentinel, List.takeWhile_cons, hx]
    · have hmem : CLOSE_TOKEN ∈ xs := by
        rcases List.mem_cons.1 h with e | e
        · exact absurd e.symm hx
        · exact e
      have := ih hmem
      simp only [beforeSentinel] at this ⊢
      simpa [List.takeWhile_cons, hx] using this

theorem beforeSentinel_sentinel : beforeSentinel [CLOSE_TOKEN] = [] := by
  simp [beforeSentinel, List.takeWhile_cons]

theorem beforeSentinel_append_sentinel (l : List String) :
    beforeSentinel (l ++ [CLOSE_TOKEN]) = beforeSentinel l := by
  by_cases h : CLOSE_TOKEN ∈ l
  · exact beforeSentinel_append_of_mem _ h
  · rw [beforeSentinel_append_of_not_mem _ h, beforeSentinel_sentinel, List.append_nil,
      beforeSentinel_of_not_mem h]

theorem beforeSentinel_isPrefix_append (l t : List String) :
    beforeSentinel l <+: beforeSentinel (l ++ t) := by
  by_cases h : CLOSE_TOKEN ∈ l
  · rw [beforeSentinel_append_of_mem _ h]
  · rw [beforeSentinel_append_of_not_mem _ h, beforeSentinel_of_not_mem h]
    exact ⟨_, rfl⟩

/-! ## The invariant is kept by every piece of the program -/

theorem wInv_Make (channelName : String) (bufferSize : Nat) :
    WInv (Make channelName bufferSize) := by
  constructor <;> simp [Make, rpushValues, beforeSentinel]

theorem wInv_startup {s : Sys} (h : WInv s) (hp : s.w.phase = .connecting)
    (dialOk delOk : Bool) : WInv (startup s dialOk delOk) := by
  obtain ⟨hr, hb, hc⟩ := h.fresh hp
  have hcl : s.ch.closed = false := by
    cases hcl : s.ch.closed
    · rfl
    · have := h.closed_iff.1 hcl
      simp [hr] at this
  have hcc : s.w.connClosed = false := by
    cases hcc : s.w.connClosed
    · rfl
    · have := h.connClosed_iff.1 hcc
      simp [hp] at this
  cases dialOk <;> cases delOk <;>
    constructor <;>
      simp [startup, hr, hb, hc, hcl, hcc, rpushValues, beforeSentinel] <;>
      exact ⟨[], by simp⟩

theorem not_mem_recvd_of_running {s : Sys} (h : WInv s) (hp : s.w.phase = .running) :
    CLOSE_TOKEN ∉ s.w.recvd := by
  intro hm
  have := h.exited_iff.2 hm
  rw [hp] at this
  cases this

theorem shape_of_running {s : Sys} (h : WInv s) (hp : s.w.phase = .running) :
    ∃ batches : List (List String), (∀ b ∈ batches, b ≠ []) ∧
      s.w.cmds = Cmd.del s.w.channelName :: batches.flatMap (flushCmds s.w.channelName) := by
  rcases h.cmds_shape with ⟨_, e | e⟩ | e
  · rw [hp] at e
    cases e
  · rw [hp] at e
    cases e
  · exact e

theorem wInv_recvCase {s : Sys} (h : WInv s) (hp : s.w.phase = .running) (m : String) :
    WInv (recvCase s m) := by
  have hn := not_mem_recvd_of_running h hp
  have hsh := shape_of_running h hp
  have hpb := h.pushed_buffer (by rw [hp]; decide)
  rw [beforeSentinel_of_not_mem hn] at hpb
  by_cases hm : m = CLOSE_TOKEN
  · subst hm
    have hrc : recvCase s CLOSE_TOKEN =
        { ch := { s.ch with closed := true },
          w := { s.w with phase := .exited, connClosed := true,
                          recvd := s.w.recvd ++ [CLOSE_TOKEN] } } := by
      simp [recvCase]
    rw [hrc]
    constructor
    · simp
    · simp
    · simp
    · intro _
      simp only [beforeSentinel_append_sentinel]
      exact h.pushed_buffer (by rw [hp]; decide)
    · simp only [beforeSentinel_append_sentinel]
      exact h.pushed_isPrefix
    · exact h.buffer_clean
    · intro hc
      cases hc
    · exact Or.inr hsh
  · have hrc : recvCase s m =
        { s with w := { s.w with buffer := s.w.buffer ++ [m],
                                 recvd := s.w.recvd ++ [m] } } := by
      simp [recvCase, hm]
    have hne : CLOSE_TOKEN ≠ m := fun e => hm e.symm
    have hn2 : CLOSE_TOKEN ∉ s.w.recvd ++ [m] := by
      simp [hn, hne]
    rw [hrc]
    constructor
    · simp only [List.mem_append, List.mem_singleton, hne, or_false]
      exact h.closed_iff
    · simp only [List.mem_append, List.mem_singleton, hne, or_false]
      exact h.exited_iff
    · exact h.connClosed_iff
    · intro _
      show rpushValues s.w.cmds ++ (s.w.buffer ++ [m]) = beforeSentinel (s.w.recvd ++ [m])
      rw [beforeSentinel_of_not_mem hn2, ← List.append_assoc, hpb]
    · show rpushValues s.w.cmds <+: beforeSentinel (s.w.recvd ++ [m])
      rw [beforeSentinel_of_not_mem hn2, ← hpb]
      exact ⟨s.w.buffer ++ [m], by simp⟩
    · show CLOSE_TOKEN ∉ s.w.buffer ++ [m]
      simp only [List.mem_append, List.mem_singleton, hne, or_false]
      exact h.buffer_clean
    · intro hc
      have : s.w.phase = .connecting := hc
      rw [hp] at this
      cases this
    · exact Or.inr hsh

theorem wInv_timerCase {s : Sys} (h : WInv s) (hp : s.w.phase = .running) (execOk : Bool) :
    WInv (timerCase s execOk) := by
  by_cases hb : s.w.buffer.length > 0
  · have hpb := h.pushed_buffer (by rw [hp]; decide)
    have hnr := not_mem_recvd_of_running h hp
    have hbne : s.w.buffer ≠ [] := by
      intro e
      simp [e] at hb
    obtain ⟨batches, hne, hcmds⟩ := shape_of_running h hp
    have hshape : ∃ bs : List (List String), (∀ b ∈ bs, b ≠ []) ∧
        s.w.cmds ++ flushCmds s.w.channelName s.w.buffer =
          Cmd.del s.w.channelName :: bs.flatMap (flushCmds s.w.channelName) := by
      refine ⟨batches ++ [s.w.buffer], ?_, ?_⟩
      · intro b hbm
        rcases List.mem_append.1 hbm with hb1 | hb1
        · exact hne b hb1
        · rw [List.mem_singleton.1 hb1]
          exact hbne
      · rw [hcmds]
        simp [List.flatMap_append]
    have hpush : rpushValues (s.w.cmds ++ flushCmds s.w.channelName s.w.buffer) =
        beforeSentinel s.w.recvd := by
      rw [rpushValues_append, rpushValues_flushCmds, hpb]
    cases execOk
    · have htc : timerCase s false =
          { s with w := { s.w with
              cmds := s.w.cmds ++ flushCmds s.w.channelName s.w.buffer, phase := .fatal } } := by
        simp [timerCase, hb]
      rw [htc]
      constructor
      · exact h.closed_iff
      · constructor
        · intro hc
          cases hc
        · intro hm
          exact absurd hm hnr
      · constructor
        · intro hc
          have := h.connClosed_iff.1 hc
          rw [hp] at this
          cases this
        · intro hc
          cases hc
      · intro hc
        exact absurd rfl hc
      · show rpushValues (s.w.cmds ++ flushCmds s.w.channelName s.w.buffer) <+: _
        rw [hpush]
      · exact h.buffer_clean
      · intro hc
        cases hc
      · exact Or.inr hshape
    · have htc : timerCase s true =
          { s with w := { s.w with
              cmds := s.w.cmds ++ flushCmds s.w.channelName s.w.buffer, buffer := [] } } := by
        simp [timerCase, hb]
      rw [htc]
      constructor
      · exact h.closed_iff
      · exact h.exited_iff
      · exact h.connClosed_iff
      · intro _
        show rpushValues (s.w.cmds ++ flushCmds s.w.channelName s.w.buffer) ++ [] = _
        rw [List.append_nil, hpush]
      · show rpushValues (s.w.cmds ++ flushCmds s.w.channelName s.w.buffer) <+: _
        rw [hpush]
      · exact List.not_mem_nil _
      · intro hc
        have : s.w.phase = .connecting := hc
        rw [hp] at this
        cases this
      · exact Or.inr hshape
  · have htc : timerCase s execOk = s := by
      simp [timerCase, hb]
    rw [htc]
    exact h

/-! ## The loop -/

theorem wInv_started (channelName : String) (bufferSize : Nat) :
    WInv (started channelName bufferSize) :=
  wInv_startup (wInv_Make channelName bufferSize) rfl true true

theorem started_phase (channelName : String) (bufferSize : Nat) :
    (started channelName bufferSize).w.phase = .running := rfl

theorem wInv_onEvent {s : Sys} (h : WInv s) (hp : s.w.phase = .running) (e : Event) :
    WInv (onEvent s e) := by
  cases e with
  | recv m => exact wInv_recvCase h hp m
  | timer execOk => exact wInv_timerCase h hp execOk

theorem loop_cons_running {s : Sys} (hp : s.w.phase = .running) (e : Event) (es : List Event) :
    loop s (e :: es) = loop (onEvent s e) es := by
  simp [loop, hp]

theorem loop_of_not_running {s : Sys} (hp : s.w.phase ≠ .running) (es : List Event) :
    loop s es = s := by
  cases es with
  | nil => rfl
  | cons e es =>
    unfold loop
    split
    · next h => exact absurd h hp
    · rfl

theorem wInv_loop (es : List Event) : ∀ {s : Sys}, WInv s → WInv (loop s es) := by
  induction es with
  | nil => intro s h; exact h
  | cons e es ih =>
    intro s h
    by_cases hp : s.w.phase = .running
    · rw [loop_cons_running hp]
      exact ih (wInv_onEvent h hp e)
    · rw [loop_of_not_running hp]
      exact h

theorem recvCase_sentinel (s : Sys) :
    recvCase s CLOSE_TOKEN =
      { ch := { s.ch with closed := true },
        w := { s.w with phase := .exited, connClosed := true,
                        recvd := s.w.recvd ++ [CLOSE_TOKEN] } } := by
  simp [recvCase]

theorem recvCase_message (s : Sys) {m : String} (hm : m ≠ CLOSE_TOKEN) :
    recvCase s m =
      { s with w := { s.w with buffer := s.w.buffer ++ [m], recvd := s.w.recvd ++ [m] } } := by
  simp [recvCase, hm]

theorem timerCase_empty {s : Sys} (hb : s.w.buffer = []) (execOk : Bool) :
    timerCase s execOk = s := by
  simp [timerCase, hb]

theorem timerCase_flush {s : Sys} (hb : s.w.buffer ≠ []) :
    timerCase s true =
      { s with w := { s.w with
          cmds := s.w.cmds ++ flushCmds s.w.channelName s.w.buffer, buffer := [] } } := by
  have : s.w.buffer.length > 0 := List.length_pos.2 hb
  simp [timerCase, this]

theorem timerCase_failed {s : Sys} (hb : s.w.buffer ≠ []) :
    timerCase s false =
      { s with w := { s.w with
          cmds := s.w.cmds ++ flushCmds s.w.channelName s.w.buffer, phase := .fatal } } := by
  have : s.w.buffer.length > 0 := List.length_pos.2 hb
  simp [timerCase, this]

theorem timerCase_true_phase (s : Sys) : (timerCase s true).w.phase = s.w.phase := by
  by_cases hb : s.w.buffer = []
  · rw [timerCase_empty hb]
  · rw [timerCase_flush hb]

theorem timerCase_recvd (s : Sys) (execOk : Bool) :
    (timerCase s execOk).w.recvd = s.w.recvd := by
  by_cases hb : s.w.buffer = []
  · rw [timerCase_empty hb]
  · cases execOk
    · rw [timerCase_failed hb]
    · rw [timerCase_flush hb]

/-- With successful pushes the loop never ends in `log.Fatal`, and the messages
it has received before the sentinel are those of its events before the sentinel. -/
theorem loop_received (es : List Event) : ∀ {s : Sys}, s.w.phase = .running →
    CLOSE_TOKEN ∉ s.w.recvd → (∀ e ∈ es, e ≠ Event.timer false) →
    (loop s es).w.phase ≠ .fatal ∧
      beforeSentinel (loop s es).w.recvd = beforeSentinel (s.w.recvd ++ msgs es) := by
  induction es with
  | nil =>
    intro s hp _ _
    refine ⟨?_, by simp [loop, msgs]⟩
    show s.w.phase ≠ .fatal
    rw [hp]
    decide
  | cons e es ih =>
    intro s hp hn hok
    have hok2 : ∀ e ∈ es, e ≠ Event.timer false := fun x hx => hok x (List.mem_cons_of_mem _ hx)
    rw [loop_cons_running hp]
    cases e with
    | recv m =>
      by_cases hm : m = CLOSE_TOKEN
      · subst hm
        have hex : (onEvent s (Event.recv CLOSE_TOKEN)).w.phase ≠ .running := by
          simp [onEvent, recvCase_sentinel]
        rw [loop_of_not_running hex]
        refine ⟨by simp [onEvent, recvCase_sentinel], ?_⟩
        show beforeSentinel (recvCase s CLOSE_TOKEN).w.recvd = _
        rw [recvCase_sentinel]
        show beforeSentinel (s.w.recvd ++ [CLOSE_TOKEN]) =
          beforeSentinel (s.w.recvd ++ (CLOSE_TOKEN :: msgs es))
        rw [beforeSentinel_append_of_not_mem _ hn, beforeSentinel_append_of_not_mem _ hn]
        simp [beforeSentinel, List.takeWhile_cons]
      · have hp2 : (onEvent s (Event.recv m)).w.phase = .running := by
          simp [onEvent, recvCase_message s hm, hp]
        have hr2 : (onEvent s (Event.recv m)).w.recvd = s.w.recvd ++ [m] := by
          simp [onEvent, recvCase_message s hm]
        have hn2 : CLOSE_TOKEN ∉ (onEvent s (Event.recv m)).w.recvd := by
          rw [hr2]
          have hne : CLOSE_TOKEN ≠ m := fun e => hm e.symm
          simp [hn, hne]
        have := ih hp2 hn2 hok2
        rw [hr2, List.append_assoc] at this
        exact this
    | timer execOk =>
      cases execOk
      · exact absurd rfl (hok _ (List.mem_cons_self _ _))
      · have hp2 : (onEvent s (Event.timer true)).w.phase = .running := by
          show (timerCase s true).w.phase = _
          rw [timerCase_true_phase, hp]
        have hr2 : (onEvent s (Event.timer true)).w.recvd = s.w.recvd :=
          timerCase_recvd s true
        have := ih hp2 (by rw [hr2]; exact hn) hok2
        rw [hr2] at this
        exact this

/-! ## The whole program -/

theorem recvCase_recvd (s : Sys) (m : String) : (recvCase s m).w.recvd = s.w.recvd ++ [m] := by
  by_cases hm : m = CLOSE_TOKEN
  · subst hm
    rw [recvCase_sentinel]
  · rw [recvCase_message s hm]

theorem recvCase_queue (s : Sys) (m : String) : (recvCase s m).ch.queue = s.ch.queue := by
  by_cases hm : m = CLOSE_TOKEN
  · subst hm
    rw [recvCase_sentinel]
  · rw [recvCase_message s hm]

theorem recvCase_cap (s : Sys) (m : String) : (recvCase s m).ch.cap = s.ch.cap := by
  by_cases hm : m = CLOSE_TOKEN
  · subst hm
    rw [recvCase_sentinel]
  · rw [recvCase_message s hm]

theorem timerCase_ch (s : Sys) (execOk : Bool) : (timerCase s execOk).ch = s.ch := by
  by_cases hb : s.w.buffer = []
  · rw [timerCase_empty hb]
  · cases execOk
    · rw [timerCase_failed hb]
    · rw [timerCase_flush hb]

theorem startup_ch (s : Sys) (dialOk delOk : Bool) : (startup s dialOk delOk).ch = s.ch := by
  cases dialOk <;> cases delOk <;> rfl

theorem startup_recvd (s : Sys) (dialOk delOk : Bool) :
    (startup s dialOk delOk).w.recvd = s.w.recvd := by
  cases dialOk <;> cases delOk <;> rfl

theorem trySend_of_closed {s : Sys} (h : s.ch.closed = true) : trySend s = .panicClosed := by
  simp [trySend, h]

theorem trySend_accepted {s : Sys} (h : trySend s = .accepted) :
    s.ch.closed = false ∧ s.ch.queue.length < s.ch.cap := by
  unfold trySend at h
  split at h
  · cases h
  · next hc =>
    split at h
    · next hl => exact ⟨by simpa using hc, hl⟩
    · split at h <;> cases h

theorem trySend_handedOver {s : Sys} (h : trySend s = .handedOver) :
    s.ch.closed = false ∧ s.ch.cap = 0 ∧ s.w.phase = .running := by
  unfold trySend at h
  split at h
  · cases h
  · next hc =>
    split at h
    · cases h
    · split at h
      · next hr => exact ⟨by simpa using hc, hr.1, hr.2⟩
      · cases h

theorem wInv_setQueue {s : Sys} (h : WInv s) (q : List String) :
    WInv { s with ch := { s.ch with queue := q } } :=
  ⟨h.closed_iff, h.exited_iff, h.connClosed_iff, h.pushed_buffer, h.pushed_isPrefix,
    h.buffer_clean, h.fresh, h.cmds_shape⟩

theorem inv_send {s : Sys} (h : Inv s) (m : String) : Inv (send s m) := by
  unfold send
  split
  · next ha =>
    obtain ⟨_, hl⟩ := trySend_accepted ha
    refine ⟨wInv_setQueue h.worker _, ?_⟩
    show (s.ch.queue ++ [m]).length ≤ s.ch.cap
    rw [List.length_append, List.length_singleton]
    exact hl
  · next hh =>
    obtain ⟨_, _, hr⟩ := trySend_handedOver hh
    refine ⟨wInv_recvCase h.worker hr m, ?_⟩
    rw [recvCase_queue, recvCase_cap]
    exact h.queue_le
  · exact h
  · exact h

theorem inv_step {s : Sys} (h : Inv s) (a : Action) : Inv (step s a) := by
  cases a with
  | start dialOk delOk =>
    simp only [step]
    split
    · next hp =>
      refine ⟨wInv_startup h.worker hp dialOk delOk, ?_⟩
      rw [startup_ch]
      exact h.queue_le
    · exact h
  | send m =>
    simp only [step]
    split
    · exact h
    · exact inv_send h m
  | close =>
    simp only [step]
    split
    · exact h
    · exact inv_send h CLOSE_TOKEN
  | recv =>
    simp only [step]
    split
    · next m rest hp hq =>
      have hw : WInv { s with ch := { s.ch with queue := rest } } := wInv_setQueue h.worker rest
      refine ⟨wInv_recvCase hw hp m, ?_⟩
      rw [recvCase_queue, recvCase_cap]
      show rest.length ≤ s.ch.cap
      have := h.queue_le
      rw [hq, List.length_cons] at this
      omega
    · exact h
  | timer execOk =>
    simp only [step]
    split
    · next hp =>
      refine ⟨wInv_timerCase h.worker hp execOk, ?_⟩
      rw [timerCase_ch]
      exact h.queue_le
    · exact h

theorem inv_Make (channelName : String) (bufferSize : Nat) : Inv (Make channelName bufferSize) :=
  ⟨wInv_Make channelName bufferSize, Nat.zero_le _⟩

theorem run_nil (s : Sys) : run s [] = s := rfl

theorem run_cons (s : Sys) (a : Action) (as : List Action) :
    run s (a :: as) = run (step s a) as := rfl

theorem run_append (s : Sys) (as bs : List Action) :
    run s (as ++ bs) = run (run s as) bs := by
  simp [run, List.foldl_append]

theorem inv_run (as : List Action) : ∀ {s : Sys}, Inv s → Inv (run s as) := by
  induction as with
  | nil => intro s h; exact h
  | cons a as ih =>
    intro s h
    rw [run_cons]
    exact ih (inv_step h a)

theorem send_w_of_not_running {s : Sys} (hp : s.w.phase ≠ .running) (m : String) :
    (send s m).w = s.w := by
  unfold send
  split
  · rfl
  · next hh => exact absurd (trySend_handedOver hh).2.2 hp
  · rfl
  · rfl

/-- Once the worker has left the loop no action changes its state. -/
theorem step_w_of_exited {s : Sys} (hp : s.w.phase = .exited) (a : Action) :
    (step s a).w = s.w := by
  have hnr : s.w.phase ≠ .running := by rw [hp]; decide
  cases a with
  | start dialOk delOk => simp [step, hp]
  | send m =>
    simp only [step, hp]
    exact send_w_of_not_running hnr m
  | close =>
    simp only [step, hp]
    exact send_w_of_not_running hnr CLOSE_TOKEN
  | recv => simp [step, hp]
  | timer execOk => simp [step, hp]

theorem run_w_of_exited (as : List Action) : ∀ {s : Sys}, s.w.phase = .exited →
    (run s as).w = s.w := by
  induction as with
  | nil => intro s _; rfl
  | cons a as ih =>
    intro s hp
    have h1 := step_w_of_exited hp a
    rw [run_cons, ih (by rw [h1]; exact hp), h1]

theorem accepted_send {s : Sys} (h : Inv s) (m : String) :
    ∃ t, accepted (send s m) = accepted s ++ t := by
  unfold send
  split
  · exact ⟨[m], by simp [accepted]⟩
  · next hh =>
    obtain ⟨_, hc, _⟩ := trySend_handedOver hh
    have hq : s.ch.queue = [] := by
      have := h.queue_le
      rw [hc] at this
      exact List.length_eq_zero.1 (Nat.le_zero.1 this)
    refine ⟨[m], ?_⟩
    simp [accepted, recvCase_recvd, recvCase_queue, hq]
  · exact ⟨[], by simp⟩
  · exact ⟨[], by simp⟩

/-- The values that have entered the channel only ever grow at the end. -/
theorem accepted_step {s : Sys} (h : Inv s) (a : Action) :
    ∃ t, accepted (step s a) = accepted s ++ t := by
  cases a with
  | start dialOk delOk =>
    simp only [step]
    split
    · exact ⟨[], by simp [accepted, startup_ch, startup_recvd]⟩
    · exact ⟨[], by simp⟩
  | send m =>
    simp only [step]
    split
    · exact ⟨[], by simp⟩
    · exact accepted_send h m
  | close =>
    simp only [step]
    split
    · exact ⟨[], by simp⟩
    · exact accepted_send h CLOSE_TOKEN
  | recv =>
    simp only [step]
    split
    · next m rest hp hq =>
      refine ⟨[], ?_⟩
      simp [accepted, recvCase_recvd, recvCase_queue, hq]
    · exact ⟨[], by simp⟩
  | timer execOk =>
    simp only [step]
    split
    · exact ⟨[], by simp [accepted, timerCase_ch, timerCase_recvd]⟩
    · exact ⟨[], by simp⟩

theorem accepted_run (as : List Action) : ∀ {s : Sys}, Inv s →
    ∃ t, accepted (run s as) = accepted s ++ t := by
  induction as with
  | nil => intro s _; exact ⟨[], by simp [run_nil]⟩
  | cons a as ih =>
    intro s h
    obtain ⟨t1, h1⟩ := accepted_step h a
    obtain ⟨t2, h2⟩ := ih (inv_step h a)
    exact ⟨t1 ++ t2, by rw [run_cons, h2, h1, List.append_assoc]⟩

/-- In every reachable state the values pushed are a prefix of the values that
entered the channel before the first sentinel. -/
theorem pushed_isPrefix_accepted {s : Sys} (h : Inv s) :
    rpushValues s.w.cmds <+: beforeSentinel (accepted s) :=
  List.IsPrefix.trans h.worker.pushed_isPrefix (beforeSentinel_isPrefix_append _ _)

/-! ## Further facts about the loop -/

theorem loop_append (xs ys : List Event) : ∀ s : Sys,
    loop s (xs ++ ys) = loop (loop s xs) ys := by
  induction xs with
  | nil => intro s; rfl
  | cons e xs ih =>
    intro s
    by_cases hp : s.w.phase = .running
    · rw [List.cons_append, loop_cons_running hp, loop_cons_running hp, ih]
    · rw [loop_of_not_running hp, loop_of_not_running hp, loop_of_not_running hp]

theorem loop_sentinel_not_running (pre : List Event) : ∀ s : Sys,
    (loop s (pre ++ [Event.recv CLOSE_TOKEN])).w.phase ≠ .running := by
  induction pre with
  | nil =>
    intro s
    by_cases hp : s.w.phase = .running
    · rw [List.nil_append, loop_cons_running hp]
      simp [loop, onEvent, recvCase_sentinel]
    · rw [loop_of_not_running hp]
      exact hp
  | cons e pre ih =>
    intro s
    by_cases hp : s.w.phase = .running
    · rw [List.cons_append, loop_cons_running hp]
      exact ih _
    · rw [loop_of_not_running hp]
      exact hp

theorem onEvent_channelName (s : Sys) (e : Event) :
    (onEvent s e).w.channelName = s.w.channelName := by
  cases e with
  | recv m =>
    by_cases hm : m = CLOSE_TOKEN
    · subst hm
      simp [onEvent, recvCase_sentinel]
    · simp [onEvent, recvCase_message s hm]
  | timer execOk =>
    by_cases hb : s.w.buffer = []
    · simp [onEvent, timerCase_empty hb]
    · cases execOk
      · simp [onEvent, timerCase_failed hb]
      · simp [onEvent, timerCase_flush hb]

theorem onEvent_cmds (s : Sys) (e : Event) :
    ∃ t, (onEvent s e).w.cmds = s.w.cmds ++ t := by
  cases e with
  | recv m =>
    by_cases hm : m = CLOSE_TOKEN
    · subst hm
      exact ⟨[], by simp [onEvent, recvCase_sentinel]⟩
    · exact ⟨[], by simp [onEvent, recvCase_message s hm]⟩
  | timer execOk =>
    by_cases hb : s.w.buffer = []
    · exact ⟨[], by simp [onEvent, timerCase_empty hb]⟩
    · cases execOk
      · exact ⟨flushCmds s.w.channelName s.w.buffer, by simp only [onEvent, timerCase_failed hb]⟩
      · exact ⟨flushCmds s.w.channelName s.w.buffer, by simp only [onEvent, timerCase_flush hb]⟩

theorem loop_channelName (es : List Event) : ∀ s : Sys,
    (loop s es).w.channelName = s.w.channelName := by
  induction es with
  | nil => intro s; rfl
  | cons e es ih =>
    intro s
    by_cases hp : s.w.phase = .running
    · rw [loop_cons_running hp, ih, onEvent_channelName]
    · rw [loop_of_not_running hp]

theorem loop_cmds (es : List Event) : ∀ s : Sys,
    ∃ t, (loop s es).w.cmds = s.w.cmds ++ t := by
  induction es with
  | nil => intro s; exact ⟨[], by simp [loop]⟩
  | cons e es ih =>
    intro s
    by_cases hp : s.w.phase = .running
    · obtain ⟨t1, h1⟩ := onEvent_cmds s e
      obtain ⟨t2, h2⟩ := ih (onEvent s e)
      exact ⟨t1 ++ t2, by rw [loop_cons_running hp, h2, h1, List.append_assoc]⟩
    · exact ⟨[], by rw [loop_of_not_running hp, List.append_nil]⟩

/-- A loop that receives no message other than the sentinel issues no command. -/
theorem loop_idle (es : List Event) : ∀ s : Sys, s.w.buffer = [] →
    (∀ m, Event.recv m ∈ es → m = CLOSE_TOKEN) → (loop s es).w.cmds = s.w.cmds := by
  induction es with
  | nil => intro s _ _; rfl
  | cons e es ih =>
    intro s hb hall
    have hall2 : ∀ m, Event.recv m ∈ es → m = CLOSE_TOKEN :=
      fun m hm => hall m (List.mem_cons_of_mem _ hm)
    by_cases hp : s.w.phase = .running
    · rw [loop_cons_running hp]
      cases e with
      | recv m =>
        have hm : m = CLOSE_TOKEN := hall m (List.mem_cons_self _ _)
        subst hm
        have hex : (onEvent s (Event.recv CLOSE_TOKEN)).w.phase ≠ .running := by
          simp [onEvent, recvCase_sentinel]
        rw [loop_of_not_running hex]
        simp [onEvent, recvCase_sentinel]
      | timer execOk =>
        have : onEvent s (Event.timer execOk) = s := timerCase_empty hb execOk
        rw [this]
        exact ih s hb hall2
    · rw [loop_of_not_running hp]

theorem mem_rpushValues {key val : String} : ∀ {cs : List Cmd},
    Cmd.rpush key val ∈ cs → val ∈ rpushValues cs := by
  intro cs
  induction cs with
  | nil => intro h; cases h
  | cons c cs ih =>
    intro h
    rcases List.mem_cons.1 h with e | e
    · rw [← e]
      simp [rpushValues]
    · have := ih e
      cases c <;> simp [rpushValues, this]

theorem sentinel_not_pushed {s : Sys} (h : WInv s) : CLOSE_TOKEN ∉ rpushValues s.w.cmds := by
  intro hm
  exact not_mem_beforeSentinel _ (List.IsPrefix.subset h.pushed_isPrefix hm)

theorem beforeSentinel_isPrefix (l : List String) : beforeSentinel l <+: l :=
  List.takeWhile_prefix _

/-! ## The program statement by statement: invariant -/

theorem pInv_closed_false {p : Prog} (h : PInv p) (h1 : p.pc ≠ .closedCh)
    (h2 : p.pc ≠ .exited) : p.ch.closed = false := by
  cases hc : p.ch.closed
  · rfl
  · rcases h.closed_iff.1 hc with e | e
    · exact absurd e h1
    · exact absurd e h2

theorem pInv_not_mem {p : Prog} (h : PInv p) (h0 : p.pc ≠ .received CLOSE_TOKEN)
    (h1 : p.pc ≠ .closedCh) (h2 : p.pc ≠ .exited) : CLOSE_TOKEN ∉ p.recvd := by
  intro hm
  rcases h.sentinel_iff.1 hm with e | e | e
  · exact absurd e h0
  · exact absurd e h1
  · exact absurd e h2

theorem pInv_connClosed_false {p : Prog} (h : PInv p) (h2 : p.pc ≠ .exited) :
    p.connClosed = false := by
  cases hc : p.connClosed
  · rfl
  · exact absurd (h.connClosed_iff.1 hc) h2

/-- The invariant after the worker has taken the value `m`, by `select` or by
a hand-over, in a state where it held none. -/
theorem pInv_receive {p q : Prog} (m : String) (h : PInv p)
    (h0 : p.pc ≠ .received CLOSE_TOKEN) (h1 : p.pc ≠ .closedCh) (h2 : p.pc ≠ .exited)
    (hclosed : q.ch.closed = p.ch.closed) (hconn : q.connClosed = p.connClosed)
    (hpc : q.pc = .received m) (hrecvd : q.recvd = p.recvd ++ [m]) : PInv q := by
  have hc := pInv_closed_false h h1 h2
  have hn := pInv_not_mem h h0 h1 h2
  have hcc := pInv_connClosed_false h h2
  constructor
  · rw [hclosed, hc, hpc]
    simp
  · rw [hrecvd, hpc]
    simp only [List.mem_append, List.mem_singleton, hn, false_or, Pc.received.injEq,
      or_false, reduceCtorEq]
    exact eq_comm
  · rw [hconn, hcc, hpc]
    simp

/-- The invariant after a step that keeps the `closed` flag, the history and
the connection, and moves the worker between control points at which it
holds no value. -/
theorem pInv_move {p q : Prog} (h : PInv p)
    (h0 : p.pc ≠ .received CLOSE_TOKEN) (h1 : p.pc ≠ .closedCh) (h2 : p.pc ≠ .exited)
    (hclosed : q.ch.closed = p.ch.closed) (hconn : q.connClosed = p.connClosed)
    (hrecvd : q.recvd = p.recvd)
    (q0 : ∀ m, q.pc ≠ .received m) (q1 : q.pc ≠ .closedCh) (q2 : q.pc ≠ .exited) :
    PInv q := by
  have hc := pInv_closed_false h h1 h2
  have hn := pInv_not_mem h h0 h1 h2
  have hcc := pInv_connClosed_false h h2
  constructor
  · rw [hclosed, hc]
    simp [q1, q2]
  · rw [hrecvd]
    simp [hn, q0, q1, q2]
  · rw [hconn, hcc]
    simp [q2]

/-- The invariant after a step that leaves the worker and the `closed` flag alone. -/
theorem pInv_same {p q : Prog} (h : PInv p) (hclosed : q.ch.closed = p.ch.closed)
    (hconn : q.connClosed = p.connClosed) (hrecvd : q.recvd = p.recvd) (hpc : q.pc = p.pc) :
    PInv q := by
  constructor
  · rw [hclosed, hpc]
    exact h.closed_iff
  · rw [hrecvd, hpc]
    exact h.sentinel_iff
  · rw [hconn, hpc]
    exact h.connClosed_iff

theorem pInv_Make (channelName : String) (bufferSize : Nat) :
    PInv (Prog.Make channelName bufferSize) := by
  constructor <;> simp [Prog.Make]

theorem sendOutcome_handedOver {p : Prog} (h : p.sendOutcome = .handedOver) :
    p.pc = .parked := by
  unfold Prog.sendOutcome at h
  split at h
  · cases h
  · split at h
    · next hp => exact hp
    · split at h <;> cases h

theorem pInv_send {p : Prog} (h : PInv p) (m : String) : PInv (p.send m) := by
  unfold Prog.send
  split
  · exact pInv_same h rfl rfl rfl rfl
  · next ho =>
    have hp := sendOutcome_handedOver ho
    exact pInv_receive m h (by rw [hp]; simp) (by rw [hp]; simp) (by rw [hp]; simp)
      rfl rfl rfl rfl
  · exact pInv_same h rfl rfl rfl rfl
  · exact h

theorem pInv_step {p : Prog} (h : PInv p) (a : Act) : PInv (p.step a) := by
  cases a with
  | start dialOk delOk =>
    simp only [Prog.step]
    split
    · next hp =>
      have e0 : p.pc ≠ .received CLOSE_TOKEN := by rw [hp]; simp
      have e1 : p.pc ≠ .closedCh := by rw [hp]; simp
      have e2 : p.pc ≠ .exited := by rw [hp]; simp
      cases dialOk <;> cases delOk <;>
        exact pInv_move h e0 e1 e2 rfl rfl rfl (by simp [Prog.startup])
          (by simp [Prog.startup]) (by simp [Prog.startup])
    · exact h
  | enter =>
    simp only [Prog.step]
    split
    · next hp =>
      have e0 : p.pc ≠ .received CLOSE_TOKEN := by rw [hp]; simp
      have e1 : p.pc ≠ .closedCh := by rw [hp]; simp
      have e2 : p.pc ≠ .exited := by rw [hp]; simp
      unfold Prog.enterSelect
      split
      · next m rest _ _ => exact pInv_receive m h e0 e1 e2 rfl rfl rfl rfl
      · next m rest x xs _ _ => exact pInv_receive m h e0 e1 e2 rfl rfl rfl rfl
      · next x xs _ _ => exact pInv_receive x h e0 e1 e2 rfl rfl rfl rfl
      · exact pInv_move h e0 e1 e2 rfl rfl rfl (by simp) (by simp) (by simp)
    · exact h
  | timer execOk =>
    simp only [Prog.step]
    split
    · next hp =>
      have e0 : p.pc ≠ .received CLOSE_TOKEN := by rw [hp]; simp
      have e1 : p.pc ≠ .closedCh := by rw [hp]; simp
      have e2 : p.pc ≠ .exited := by rw [hp]; simp
      unfold Prog.timerFires
      split
      · split
        · exact pInv_move h e0 e1 e2 rfl rfl rfl (by simp) (by simp) (by simp)
        · exact pInv_move h e0 e1 e2 rfl rfl rfl (by simp) (by simp) (by simp)
      · exact pInv_move h e0 e1 e2 rfl rfl rfl (by simp) (by simp) (by simp)
    · exact h
  | process =>
    simp only [Prog.step]
    split
    · next result hp =>
      have hcc := pInv_connClosed_false h (by rw [hp]; simp)
      unfold Prog.processResult
      split
      · next hr =>
        have hm : CLOSE_TOKEN ∈ p.recvd := h.sentinel_iff.2 (Or.inl (by rw [hp, hr]))
        constructor
        · simp
        · simp [hm]
        · simp [hcc]
      · next hr =>
        have e0 : p.pc ≠ .received CLOSE_TOKEN := by rw [hp]; simp [hr]
        have e1 : p.pc ≠ .closedCh := by rw [hp]; simp
        have e2 : p.pc ≠ .exited := by rw [hp]; simp
        exact pInv_move h e0 e1 e2 rfl rfl rfl (by simp) (by simp) (by simp)
    · exact h
  | leave =>
    simp only [Prog.step]
    split
    · next hp =>
      have hc : p.ch.closed = true := h.closed_iff.2 (Or.inl hp)
      have hm : CLOSE_TOKEN ∈ p.recvd := h.sentinel_iff.2 (Or.inr (Or.inl hp))
      constructor
      · simp [Prog.leave, hc]
      · simp [Prog.leave, hm]
      · simp [Prog.leave]
    · exact h
  | send m =>
    simp only [Prog.step]
    split
    · exact h
    · exact pInv_send h m
  | close =>
    simp only [Prog.step]
    split
    · exact h
    · exact pInv_send h CLOSE_TOKEN

theorem prog_run_cons (p : Prog) (a : Act) (as : List Act) :
    p.run (a :: as) = (p.step a).run as := rfl

theorem pInv_run (as : List Act) : ∀ {p : Prog}, PInv p → PInv (p.run as) := by
  induction as with
  | nil => intro p h; exact h
  | cons a as ih =>
    intro p h
    rw [prog_run_cons]
    exact ih (pInv_step h a)

/-- Only the worker's `close(ch)`, run on the sentinel it holds, changes the
`closed` flag. -/
theorem prog_step_closed (p : Prog) (a : Act)
    (h : ¬(a = .process ∧ p.pc = .received CLOSE_TOKEN)) :
    (p.step a).ch.closed = p.ch.closed := by
  cases a with
  | start dialOk delOk =>
    simp only [Prog.step]
    split
    · cases dialOk <;> cases delOk <;> rfl
    · rfl
  | enter =>
    simp only [Prog.step]
    split
    · unfold Prog.enterSelect
      split <;> rfl
    · rfl
  | timer execOk =>
    simp only [Prog.step]
    split
    · unfold Prog.timerFires
      split
      · split <;> rfl
      · rfl
    · rfl
  | process =>
    simp only [Prog.step]
    split
    · next result hp =>
      unfold Prog.processResult
      split
      · next hr =>
        exact absurd ⟨rfl, by rw [hp, hr]⟩ h
      · rfl
    · rfl
  | leave =>
    simp only [Prog.step]
    split <;> rfl
  | send m =>
    simp only [Prog.step]
    split
    · rfl
    · unfold Prog.send
      split <;> rfl
  | close =>
    simp only [Prog.step]
    split
    · rfl
    · unfold Prog.Close Prog.send
      split <;> rfl

/-- Neither the buffer nor an `RPUSH` ever holds the sentinel, statement by statement. -/
theorem prog_step_clean {p : Prog}
    (h : CLOSE_TOKEN ∉ p.buffer ∧ CLOSE_TOKEN ∉ rpushValues p.cmds) (a : Act) :
    CLOSE_TOKEN ∉ (p.step a).buffer ∧ CLOSE_TOKEN ∉ rpushValues (p.step a).cmds := by
  obtain ⟨hb, hc⟩ := h
  cases a with
  | start dialOk delOk =>
    simp only [Prog.step]
    split
    · cases dialOk <;> cases delOk <;>
        simp [Prog.startup, rpushValues_append, rpushValues, hb, hc]
    · exact ⟨hb, hc⟩
  | enter =>
    simp only [Prog.step]
    split
    · unfold Prog.enterSelect
      split <;> exact ⟨hb, hc⟩
    · exact ⟨hb, hc⟩
  | timer execOk =>
    simp only [Prog.step]
    split
    · unfold Prog.timerFires
      split
      · split <;> simp [rpushValues_append, rpushValues_flushCmds, hb, hc]
      · exact ⟨hb, hc⟩
    · exact ⟨hb, hc⟩
  | process =>
    simp only [Prog.step]
    split
    · next result hp =>
      unfold Prog.processResult
      split
      · exact ⟨hb, hc⟩
      · next hr =>
        have hne : CLOSE_TOKEN ≠ result := fun e => hr e.symm
        exact ⟨by simp [hb, hne], hc⟩
    · exact ⟨hb, hc⟩
  | leave =>
    simp only [Prog.step]
    split <;> exact ⟨hb, hc⟩
  | send m =>
    simp only [Prog.step]
    split
    · exact ⟨hb, hc⟩
    · unfold Prog.send
      split <;> exact ⟨hb, hc⟩
  | close =>
    simp only [Prog.step]
    split
    · exact ⟨hb, hc⟩
    · unfold Prog.Close Prog.send
      split <;> exact ⟨hb, hc⟩

/-- No `RPUSH` of the sentinel in any run of the program taken statement by statement. -/
theorem prog_run_clean (as : List Act) : ∀ {p : Prog},
    CLOSE_TOKEN ∉ p.buffer ∧ CLOSE_TOKEN ∉ rpushValues p.cmds →
    CLOSE_TOKEN ∉ (p.run as).buffer ∧ CLOSE_TOKEN ∉ rpushValues (p.run as).cmds := by
  induction as with
  | nil => intro p h; exact h
  | cons a as ih =>
    intro p h
    rw [prog_run_cons]
    exact ih (prog_step_clean h a)

/-- Once the worker holds or has handled the sentinel, no step changes what it
has received, buffered or issued, statement by statement. -/
theorem prog_step_frozen {p : Prog}
    (h : p.pc = .received CLOSE_TOKEN ∨ p.pc = .closedCh ∨ p.pc = .exited) (a : Act) :
    ((p.step a).pc = .received CLOSE_TOKEN ∨ (p.step a).pc = .closedCh ∨
        (p.step a).pc = .exited) ∧
      (p.step a).recvd = p.recvd ∧ (p.step a).buffer = p.buffer ∧
      (p.step a).cmds = p.cmds := by
  have hnp : p.pc ≠ .parked := by
    rcases h with e | e | e <;> rw [e] <;> simp
  have hsend : ∀ m, ((p.send m).pc = .received CLOSE_TOKEN ∨ (p.send m).pc = .closedCh ∨
      (p.send m).pc = .exited) ∧ (p.send m).recvd = p.recvd ∧
      (p.send m).buffer = p.buffer ∧ (p.send m).cmds = p.cmds := by
    intro m
    unfold Prog.send
    split
    · exact ⟨h, rfl, rfl, rfl⟩
    · next ho => exact absurd (sendOutcome_handedOver ho) hnp
    · exact ⟨h, rfl, rfl, rfl⟩
    · exact ⟨h, rfl, rfl, rfl⟩
  cases a with
  | start dialOk delOk =>
    simp only [Prog.step]
    split
    · next hp => rcases h with e | e | e <;> rw [hp] at e <;> cases e
    · exact ⟨h, rfl, rfl, rfl⟩
  | enter =>
    simp only [Prog.step]
    split
    · next hp => rcases h with e | e | e <;> rw [hp] at e <;> cases e
    · exact ⟨h, rfl, rfl, rfl⟩
  | timer execOk =>
    have hid : p.step (.timer execOk) = p := by
      simp only [Prog.step]
    rw [hid]
    exact ⟨h, rfl, rfl, rfl⟩
  | process =>
    simp only [Prog.step]
    split
    · next result hp =>
      have hr : result = CLOSE_TOKEN := by
        rcases h with e | e | e <;> rw [hp] at e <;> cases e
        rfl
      subst hr
      simp [Prog.processResult]
    · exact ⟨h, rfl, rfl, rfl⟩
  | leave =>
    simp only [Prog.step]
    split
    · simp [Prog.leave]
    · exact ⟨h, rfl, rfl, rfl⟩
  | send m =>
    simp only [Prog.step]
    split
    · exact ⟨h, rfl, rfl, rfl⟩
    · exact hsend m
  | close =>
    simp only [Prog.step]
    split
    · exact ⟨h, rfl, rfl, rfl⟩
    · exact hsend CLOSE_TOKEN

theorem prog_run_frozen (as : List Act) : ∀ {p : Prog},
    (p.pc = .received CLOSE_TOKEN ∨ p.pc = .closedCh ∨ p.pc = .exited) →
    (p.run as).recvd = p.recvd ∧ (p.run as).buffer = p.buffer ∧ (p.run as).cmds = p.cmds := by
  induction as with
  | nil => intro p _; exact ⟨rfl, rfl, rfl⟩
  | cons a as ih =>
    intro p h
    obtain ⟨h1, e1, e2, e3⟩ := prog_step_frozen h a
    obtain ⟨f1, f2, f3⟩ := ih h1
    rw [prog_run_cons]
    exact ⟨f1.trans e1, f2.trans e2, f3.trans e3⟩

/-! ## The claims -/

/-- C1 (fails on the code): the sentinel case does `close(ch)` and `break CLOSE_ME`
without flushing. After "a","b","c", a timer event, "d","e" and the sentinel,
the worker has left its loop, the values pushed are "a","b","c" only, and
"d","e" are still in the buffer; no later action pushes them. The same
happens when the producer sends them through the channel and calls `Close()`. -/
theorem C1_close_drops_buffered :
    (loop (started "gameStream" 5)
        [.recv "a", .recv "b", .recv "c", .timer true, .recv "d", .recv "e",
          .recv CLOSE_TOKEN]).w.phase = .exited ∧
    rpushValues (loop (started "gameStream" 5)
        [.recv "a", .recv "b", .recv "c", .timer true, .recv "d", .recv "e",
          .recv CLOSE_TOKEN]).w.cmds = ["a", "b", "c"] ∧
    (loop (started "gameStream" 5)
        [.recv "a", .recv "b", .recv "c", .timer true, .recv "d", .recv "e",
          .recv CLOSE_TOKEN]).w.buffer = ["d", "e"] ∧
    rpushValues (run (Make "gameStream" 5)
        [.start true true, .send "a", .send "b", .send "c", .recv, .recv, .recv,
          .timer true, .send "d", .send "e", .close, .recv, .recv, .recv,
          .timer true, .timer true]).w.cmds = ["a", "b", "c"] ∧
    (run (Make "gameStream" 5)
        [.start true true, .send "a", .send "b", .send "c", .recv, .recv, .recv,
          .timer true, .send "d", .send "e", .close, .recv, .recv, .recv,
          .timer true, .timer true]).w.phase = .exited := by
  decide

/-- C2: in every state the loop reaches by received messages and timer events
whose pushes succeed, the values pushed so far followed by the buffer are the
messages received before the sentinel, in receive order; so the pushed values
are a prefix of the received sequence and the buffer is what was received
after the last flush. -/
theorem C2_order_invariant (channelName : String) (bufferSize : Nat) (es : List Event)
    (hok : ∀ e ∈ es, e ≠ Event.timer false) :
    rpushValues (loop (started channelName bufferSize) es).w.cmds ++
        (loop (started channelName bufferSize) es).w.buffer = beforeSentinel (msgs es) ∧
    rpushValues (loop (started channelName bufferSize) es).w.cmds <+: msgs es ∧
    (loop (started channelName bufferSize) es).w.buffer =
      (beforeSentinel (msgs es)).drop
        (rpushValues (loop (started channelName bufferSize) es).w.cmds).length := by
  have hinv := wInv_loop es (wInv_started channelName bufferSize)
  obtain ⟨hnf, hrec⟩ := loop_received es (started_phase channelName bufferSize)
    (List.not_mem_nil _) hok
  have hmain : rpushValues (loop (started channelName bufferSize) es).w.cmds ++
      (loop (started channelName bufferSize) es).w.buffer = beforeSentinel (msgs es) := by
    rw [hinv.pushed_buffer hnf, hrec]
    rfl
  refine ⟨hmain, ?_, ?_⟩
  · exact List.IsPrefix.trans ⟨_, hmain⟩ (beforeSentinel_isPrefix _)
  · rw [← hmain, List.drop_left]

/-- C2 at a concrete run: "a", a timer event, "b". -/
theorem C2_order_invariant_witness :
    rpushValues (loop (started "gameStream" 5)
        [.recv "a", .timer true, .recv "b"]).w.cmds ++
        (loop (started "gameStream" 5) [.recv "a", .timer true, .recv "b"]).w.buffer =
      beforeSentinel (msgs [.recv "a", .timer true, .recv "b"]) ∧
    rpushValues (loop (started "gameStream" 5)
        [.recv "a", .timer true, .recv "b"]).w.cmds <+:
      msgs [.recv "a", .timer true, .recv "b"] ∧
    (loop (started "gameStream" 5) [.recv "a", .timer true, .recv "b"]).w.buffer =
      (beforeSentinel (msgs [.recv "a", .timer true, .recv "b"])).drop
        (rpushValues (loop (started "gameStream" 5)
          [.recv "a", .timer true, .recv "b"]).w.cmds).length :=
  C2_order_invariant "gameStream" 5 [.recv "a", .timer true, .recv "b"] (by decide)

/-- C3 (fails on the code): `Close()` is only `ch <- CLOSE_TOKEN`; `close(ch)` is
run later by the worker. With capacity 5 and the worker blocked in `select`,
`Close()` hands the sentinel over and returns with the channel open and
empty; a send of "x" right after it is accepted, not refused, and "x" stays
in the channel, never received and never pushed, when the worker closes the
channel and returns. Only then does a send panic. The same happens when the
worker has not yet connected: the sentinel and "x" are both queued; with
capacity 1 the send of "x" waits on the full channel and completes when the
worker receives the sentinel, before `close(ch)`. -/
theorem C3_send_after_Close_is_accepted :
    ((Prog.Make "gameStream" 5).run [.start true true, .enter]).pc = .parked ∧
    ((Prog.Make "gameStream" 5).run [.start true true, .enter]).sendOutcome = .handedOver ∧
    ((Prog.Make "gameStream" 5).run [.start true true, .enter, .close]).pc =
      .received CLOSE_TOKEN ∧
    ((Prog.Make "gameStream" 5).run [.start true true, .enter, .close]).ch.queue = [] ∧
    ((Prog.Make "gameStream" 5).run [.start true true, .enter, .close]).ch.closed = false ∧
    ((Prog.Make "gameStream" 5).run [.start true true, .enter, .close]).sendOutcome =
      .accepted ∧
    ((Prog.Make "gameStream" 5).run [.start true true, .enter, .close, .send "x"]).ch.queue =
      ["x"] ∧
    ((Prog.Make "gameStream" 5).run
      [.start true true, .enter, .close, .send "x", .process, .leave, .enter,
        .timer true]).ch = { cap := 5, queue := ["x"], closed := true } ∧
    ((Prog.Make "gameStream" 5).run
      [.start true true, .enter, .close, .send "x", .process, .leave, .enter,
        .timer true]).pc = .exited ∧
    ((Prog.Make "gameStream" 5).run
      [.start true true, .enter, .close, .send "x", .process, .leave, .enter,
        .timer true]).recvd = [CLOSE_TOKEN] ∧
    ((Prog.Make "gameStream" 5).run
      [.start true true, .enter, .close, .send "x", .process, .leave, .enter,
        .timer true]).cmds = [Cmd.del "gameStream"] ∧
    ((Prog.Make "gameStream" 5).run
      [.start true true, .enter, .close, .send "x", .process, .leave]).sendOutcome =
      .panicClosed ∧
    ((Prog.Make "gameStream" 5).run [.close]).sendOutcome = .accepted ∧
    ((Prog.Make "gameStream" 5).run [.close, .send "x"]).ch =
      { cap := 5, queue := [CLOSE_TOKEN, "x"], closed := false } ∧
    ((Prog.Make "gameStream" 5).run
      [.close, .send "x", .start true true, .enter, .process, .leave]).ch =
      { cap := 5, queue := ["x"], closed := true } ∧
    ((Prog.Make "gameStream" 5).run
      [.close, .send "x", .start true true, .enter, .process, .leave]).cmds =
      [Cmd.del "gameStream"] ∧
    ((Prog.Make "gameStream" 1).run [.close, .send "x"]).sendq = ["x"] ∧
    ((Prog.Make "gameStream" 1).run [.close, .send "x", .start true true, .enter]).ch =
      { cap := 1, queue := ["x"], closed := false } ∧
    ((Prog.Make "gameStream" 1).run [.close, .send "x", .start true true, .enter]).sendq =
      [] ∧
    ((Prog.Make "gameStream" 1).run
      [.close, .send "x", .start true true, .enter, .process, .leave]).ch =
      { cap := 1, queue := ["x"], closed := true } := by
  decide

/-- C4: once the worker has received `CLOSE_TOKEN`, no later action changes the
worker's state (nothing more is received, appended or issued); whatever
entered the channel behind the first sentinel is never pushed; and the loop
ignores every event after the sentinel. -/
theorem C4_closed_is_terminal (channelName : String) (bufferSize : Nat)
    (as bs : List Action) (pre post : List Event) :
    (CLOSE_TOKEN ∈ (run (Make channelName bufferSize) as).w.recvd →
      (run (run (Make channelName bufferSize) as) bs).w =
        (run (Make channelName bufferSize) as).w) ∧
    (CLOSE_TOKEN ∈ accepted (run (Make channelName bufferSize) as) →
      rpushValues (run (run (Make channelName bufferSize) as) bs).w.cmds <+:
        beforeSentinel (accepted (run (Make channelName bufferSize) as))) ∧
    loop (started channelName bufferSize) (pre ++ Event.recv CLOSE_TOKEN :: post) =
      loop (started channelName bufferSize) (pre ++ [Event.recv CLOSE_TOKEN]) := by
  have hinv := inv_run as (inv_Make channelName bufferSize)
  refine ⟨?_, ?_, ?_⟩
  · intro hmem
    exact run_w_of_exited bs (hinv.worker.exited_iff.2 hmem)
  · intro hmem
    obtain ⟨t, ht⟩ := accepted_run bs hinv
    have := pushed_isPrefix_accepted (inv_run bs hinv)
    rw [ht, beforeSentinel_append_of_mem _ hmem] at this
    exact this
  · have : pre ++ Event.recv CLOSE_TOKEN :: post = (pre ++ [Event.recv CLOSE_TOKEN]) ++ post := by
      simp
    rw [this, loop_append, loop_of_not_running (loop_sentinel_not_running pre _)]

/-- C4 at a concrete run: "y" is sent behind the sentinel and never pushed. -/
theorem C4_closed_is_terminal_witness :
    (run (run (Make "gameStream" 5) [.start true true, .send "a", .close, .send "y",
        .recv, .recv]) [.recv, .timer true, .send "z"]).w =
      (run (Make "gameStream" 5) [.start true true, .send "a", .close, .send "y",
        .recv, .recv]).w ∧
    rpushValues (run (run (Make "gameStream" 5) [.start true true, .send "a", .close,
        .send "y"]) [.recv, .timer true, .recv, .recv, .timer true]).w.cmds <+:
      beforeSentinel (accepted (run (Make "gameStream" 5) [.start true true, .send "a",
        .close, .send "y"])) :=
  ⟨(C4_closed_is_terminal "gameStream" 5 [.start true true, .send "a", .close, .send "y",
      .recv, .recv] [.recv, .timer true, .send "z"] [] []).1 (by decide),
   (C4_closed_is_terminal "gameStream" 5 [.start true true, .send "a", .close, .send "y"]
      [.recv, .timer true, .recv, .recv, .timer true] [] []).2.1 (by decide)⟩

/-- C5: on a non-empty buffer the timer case issues exactly `MULTI`, one
`RPUSH channelName v` for each buffered `v` in buffer order, and `EXEC`; when
`EXEC` succeeds the buffer is empty afterwards. -/
theorem C5_flush_step (s : Sys) (execOk : Bool) (hb : s.w.buffer ≠ []) :
    (onEvent s (.timer execOk)).w.cmds =
      s.w.cmds ++ ([Cmd.multi] ++ s.w.buffer.map (Cmd.rpush s.w.channelName) ++ [Cmd.exec]) ∧
    (onEvent s (.timer true)).w.buffer = [] := by
  constructor
  · cases execOk
    · simp only [onEvent, timerCase_failed hb, flushCmds]
    · simp only [onEvent, timerCase_flush hb, flushCmds]
  · simp only [onEvent, timerCase_flush hb]

/-- C5 at the buffer "a","b","c". -/
theorem C5_flush_step_witness :
    (onEvent (loop (started "gameStream" 5) [.recv "a", .recv "b", .recv "c"])
        (.timer true)).w.cmds =
      [Cmd.del "gameStream"] ++ ([Cmd.multi] ++
        [Cmd.rpush "gameStream" "a", Cmd.rpush "gameStream" "b", Cmd.rpush "gameStream" "c"] ++
        [Cmd.exec]) ∧
    (onEvent (loop (started "gameStream" 5) [.recv "a", .recv "b", .recv "c"])
        (.timer true)).w.buffer = [] :=
  C5_flush_step (loop (started "gameStream" 5) [.recv "a", .recv "b", .recv "c"]) true
    (by decide)

/-- C6: a timer event on an empty buffer changes nothing; a loop that receives
no message other than the sentinel issues nothing after the startup `DEL`;
and the commands of any loop are the `DEL` followed by transactions of
non-empty batches. -/
theorem C6_idle (channelName : String) (bufferSize : Nat) (s : Sys) (execOk : Bool)
    (es fs : List Event) (hb : s.w.buffer = [])
    (hidle : ∀ m, Event.recv m ∈ es → m = CLOSE_TOKEN) :
    onEvent s (.timer execOk) = s ∧
    (loop (started channelName bufferSize) es).w.cmds = [Cmd.del channelName] ∧
    ∃ batches : List (List String), (∀ b ∈ batches, b ≠ []) ∧
      (loop (started channelName bufferSize) fs).w.cmds =
        Cmd.del channelName :: batches.flatMap (flushCmds channelName) := by
  refine ⟨timerCase_empty hb execOk, ?_, ?_⟩
  · rw [loop_idle es (started channelName bufferSize) rfl hidle]
    rfl
  · have hinv := wInv_loop fs (wInv_started channelName bufferSize)
    have hname := loop_channelName fs (started channelName bufferSize)
    obtain ⟨t, ht⟩ := loop_cmds fs (started channelName bufferSize)
    rcases hinv.cmds_shape with ⟨hnil, _⟩ | ⟨batches, hne, hc⟩
    · rw [ht] at hnil
      have : (started channelName bufferSize).w.cmds = [Cmd.del channelName] := rfl
      rw [this] at hnil
      cases hnil
    · rw [hname] at hc
      exact ⟨batches, hne, hc⟩

/-- C6 at concrete runs: an idle loop, and a loop with two flushes. -/
theorem C6_idle_witness :
    onEvent (started "gameStream" 5) (.timer true) = started "gameStream" 5 ∧
    (loop (started "gameStream" 5) [.timer true, .timer false, .recv CLOSE_TOKEN]).w.cmds =
      [Cmd.del "gameStream"] ∧
    ∃ batches : List (List String), (∀ b ∈ batches, b ≠ []) ∧
      (loop (started "gameStream" 5)
        [.recv "a", .timer true, .timer true, .recv "b", .recv "c", .timer true]).w.cmds =
        Cmd.del "gameStream" :: batches.flatMap (flushCmds "gameStream") :=
  C6_idle "gameStream" 5 (started "gameStream" 5) true
    [.timer true, .timer false, .recv CLOSE_TOKEN]
    [.recv "a", .timer true, .timer true, .recv "b", .recv "c", .timer true]
    rfl (by intro m hm; simpa using hm)

/-- C7 (fails on the code): `time.After` is evaluated anew each time `select` is
entered, so receiving a message moves the next timer event to 40ms after
that receipt. From time 0 (timer due at 40), "a" received at 30 moves it to
70; with "b" at 60 and "c" at 90 no timer event has happened by time 90, the
next is due at 130, and "a" is still unflushed 60ms after it arrived. -/
theorem C7_timer_restarts_on_arrival :
    timerDue (timedStart "gameStream" 5) = 40 ∧
    (timedStep (timedStart "gameStream" 5) (.arrive 30 "a")).map timerDue = some 70 ∧
    (timedRun (timedStart "gameStream" 5)
        [.arrive 30 "a", .arrive 60 "b", .arrive 90 "c"]).map
      (fun t => (t.selectAt, timerDue t, t.sys.w.buffer, rpushValues t.sys.w.cmds)) =
      some (90, 130, ["a", "b", "c"], []) := by
  decide

/-- C8 (fails on the code): on the two fatal paths after the connection was
established, a failed startup `DEL` and a failed `EXEC`, the process ends in
`log.Fatal` and the deferred `c.Close()` has not run, at loop-iteration and
at statement granularity; on the normal exit after the sentinel the
deferred `c.Close()` does run, as the worker's last step. -/
theorem C8_fatal_paths_skip_conn_close :
    ((run (Make "gameStream" 5) [.start true false]).w.connDialed = true ∧
      (run (Make "gameStream" 5) [.start true false]).w.phase = .fatal ∧
      (run (Make "gameStream" 5) [.start true false]).w.connClosed = false) ∧
    ((run (Make "gameStream" 5)
        [.start true true, .send "a", .recv, .timer false]).w.connDialed = true ∧
      (run (Make "gameStream" 5)
        [.start true true, .send "a", .recv, .timer false]).w.phase = .fatal ∧
      (run (Make "gameStream" 5)
        [.start true true, .send "a", .recv, .timer false]).w.connClosed = false) ∧
    (((Prog.Make "gameStream" 5).run [.start true false]).connDialed = true ∧
      ((Prog.Make "gameStream" 5).run [.start true false]).pc = .fatal ∧
      ((Prog.Make "gameStream" 5).run [.start true false, .leave]).connClosed = false) ∧
    (((Prog.Make "gameStream" 5).run
        [.start true true, .enter, .send "a", .process, .enter, .timer false]).connDialed =
        true ∧
      ((Prog.Make "gameStream" 5).run
        [.start true true, .enter, .send "a", .process, .enter, .timer false]).pc = .fatal ∧
      ((Prog.Make "gameStream" 5).run
        [.start true true, .enter, .send "a", .process, .enter, .timer false,
          .leave]).connClosed = false) ∧
    (((Prog.Make "gameStream" 5).run
        [.start true true, .enter, .close, .process]).connClosed = false ∧
      ((Prog.Make "gameStream" 5).run
        [.start true true, .enter, .close, .process, .leave]).connClosed = true ∧
      ((Prog.Make "gameStream" 5).run
        [.start true true, .enter, .close, .process, .leave]).pc = .exited) := by
  decide

/-- C9 (fails as stated): between the receive of line 104 and `close(ch)` of
line 107 the worker has received the sentinel and the channel is still open.
With the worker blocked in `select`, `Close()` hands the sentinel over; in
the state reached the sentinel is received and the channel is not closed. -/
theorem C9_sentinel_received_channel_open :
    CLOSE_TOKEN ∈ ((Prog.Make "gameStream" 5).run [.start true true, .enter, .close]).recvd ∧
    ((Prog.Make "gameStream" 5).run [.start true true, .enter, .close]).ch.closed = false ∧
    ¬(((Prog.Make "gameStream" 5).run [.start true true, .enter, .close]).ch.closed = true ↔
      CLOSE_TOKEN ∈
        ((Prog.Make "gameStream" 5).run [.start true true, .enter, .close]).recvd) := by
  decide

/-- C9 as amended: in every reachable state, taken statement by statement, a
closed channel means the worker has received `CLOSE_TOKEN`; when the
sentinel is received and the channel still open, the worker holds the
sentinel and its next statement closes the channel; no other step of the
program changes the `closed` flag: not `Close()`, which is the send of
`CLOSE_TOKEN`, not the handling of another message, not a timer event. -/
theorem C9_closed_only_by_worker_on_sentinel (channelName : String) (bufferSize : Nat)
    (as : List Act) (a : Act) (m : String) (execOk : Bool) :
    (((Prog.Make channelName bufferSize).run as).ch.closed = true →
      CLOSE_TOKEN ∈ ((Prog.Make channelName bufferSize).run as).recvd) ∧
    (CLOSE_TOKEN ∈ ((Prog.Make channelName bufferSize).run as).recvd →
      ((Prog.Make channelName bufferSize).run as).ch.closed = false →
      ((Prog.Make channelName bufferSize).run as).pc = .received CLOSE_TOKEN) ∧
    (((Prog.Make channelName bufferSize).run as).pc = .received CLOSE_TOKEN →
      (((Prog.Make channelName bufferSize).run as).step .process).ch.closed = true) ∧
    ((Prog.Make channelName bufferSize).run as).Close =
      ((Prog.Make channelName bufferSize).run as).send CLOSE_TOKEN ∧
    (((Prog.Make channelName bufferSize).run as).step .close).ch.closed =
      ((Prog.Make channelName bufferSize).run as).ch.closed ∧
    (¬(a = .process ∧ ((Prog.Make channelName bufferSize).run as).pc = .received CLOSE_TOKEN) →
      (((Prog.Make channelName bufferSize).run as).step a).ch.closed =
        ((Prog.Make channelName bufferSize).run as).ch.closed) ∧
    (m ≠ CLOSE_TOKEN →
      (((Prog.Make channelName bufferSize).run as).processResult m).ch.closed =
        ((Prog.Make channelName bufferSize).run as).ch.closed) ∧
    (((Prog.Make channelName bufferSize).run as).timerFires execOk).ch.closed =
      ((Prog.Make channelName bufferSize).run as).ch.closed := by
  have hinv := pInv_run as (pInv_Make channelName bufferSize)
  refine ⟨?_, ?_, ?_, rfl, ?_, ?_, ?_, ?_⟩
  · intro hc
    rcases hinv.closed_iff.1 hc with e | e
    · exact hinv.sentinel_iff.2 (Or.inr (Or.inl e))
    · exact hinv.sentinel_iff.2 (Or.inr (Or.inr e))
  · intro hm hc
    rcases hinv.sentinel_iff.1 hm with e | e | e
    · exact e
    · have := hinv.closed_iff.2 (Or.inl e)
      rw [hc] at this
      cases this
    · have := hinv.closed_iff.2 (Or.inr e)
      rw [hc] at this
      cases this
  · intro hp
    simp [Prog.step, hp, Prog.processResult]
  · exact prog_step_closed _ _ (by simp)
  · exact prog_step_closed _ _
  · intro hm
    simp [Prog.processResult, hm]
  · unfold Prog.timerFires
    split
    · split <;> rfl
    · rfl

/-- C9 as amended, at concrete runs with capacity 5: after `Close()` to the
blocked worker the worker holds the sentinel and its next statement closes
the channel; `Close()` and a send leave the flag alone; once the channel is
closed the sentinel is among the received values. -/
theorem C9_closed_only_by_worker_on_sentinel_witness :
    CLOSE_TOKEN ∈
      ((Prog.Make "gameStream" 5).run [.start true true, .enter, .close, .process]).recvd ∧
    ((Prog.Make "gameStream" 5).run [.start true true, .enter, .close]).pc =
      .received CLOSE_TOKEN ∧
    (((Prog.Make "gameStream" 5).run [.start true true, .enter, .close]).step
      .process).ch.closed = true ∧
    (((Prog.Make "gameStream" 5).run [.start true true, .enter]).step .close).ch.closed =
      ((Prog.Make "gameStream" 5).run [.start true true, .enter]).ch.closed ∧
    (((Prog.Make "gameStream" 5).run [.start true true, .enter, .close]).step
      (.send "x")).ch.closed =
      ((Prog.Make "gameStream" 5).run [.start true true, .enter, .close]).ch.closed ∧
    (((Prog.Make "gameStream" 5).run [.start true true, .enter]).processResult "a").ch.closed =
      ((Prog.Make "gameStream" 5).run [.start true true, .enter]).ch.closed :=
  ⟨(C9_closed_only_by_worker_on_sentinel "gameStream" 5
      [.start true true, .enter, .close, .process] .leave "a" true).1 (by decide),
   (C9_closed_only_by_worker_on_sentinel "gameStream" 5
      [.start true true, .enter, .close] .leave "a" true).2.1 (by decide) (by decide),
   (C9_closed_only_by_worker_on_sentinel "gameStream" 5
      [.start true true, .enter, .close] .leave "a" true).2.2.1 (by decide),
   (C9_closed_only_by_worker_on_sentinel "gameStream" 5
      [.start true true, .enter] .leave "a" true).2.2.2.2.1,
   (C9_closed_only_by_worker_on_sentinel "gameStream" 5
      [.start true true, .enter, .close] (.send "x") "a" true).2.2.2.2.2.1 (by decide),
   (C9_closed_only_by_worker_on_sentinel "gameStream" 5
      [.start true true, .enter] .leave "a" true).2.2.2.2.2.2.1 (by decide)⟩

/-- C10: no `RPUSH` ever carries `CLOSE_TOKEN`, neither in a loop run on any
events nor in any reachable state of the program, and the buffer never holds
it; a send of `CLOSE_TOKEN` is the same action as `Close()`; receiving it
closes the channel, ends the loop and leaves the buffer as it was. -/
theorem C10_sentinel_never_forwarded (channelName : String) (bufferSize : Nat)
    (es : List Event) (as : List Action) (key : String) (s : Sys) :
    Cmd.rpush key CLOSE_TOKEN ∉ (loop (started channelName bufferSize) es).w.cmds ∧
    Cmd.rpush key CLOSE_TOKEN ∉ (run (Make channelName bufferSize) as).w.cmds ∧
    CLOSE_TOKEN ∉ (loop (started channelName bufferSize) es).w.buffer ∧
    CLOSE_TOKEN ∉ (run (Make channelName bufferSize) as).w.buffer ∧
    step s (.send CLOSE_TOKEN) = step s .close ∧
    (recvCase s CLOSE_TOKEN).w.buffer = s.w.buffer ∧
    (recvCase s CLOSE_TOKEN).ch.closed = true ∧
    (recvCase s CLOSE_TOKEN).w.phase = .exited := by
  have hl := wInv_loop es (wInv_started channelName bufferSize)
  have hr := (inv_run as (inv_Make channelName bufferSize)).worker
  refine ⟨fun h => sentinel_not_pushed hl (mem_rpushValues h),
    fun h => sentinel_not_pushed hr (mem_rpushValues h),
    hl.buffer_clean, hr.buffer_clean, rfl, ?_, ?_, ?_⟩ <;>
  rw [recvCase_sentinel]

end SuperChannel
